import Mathlib

/-!
Verification of the SonarQube issue-blame enrichment pipeline.

The development shallowly embeds the two script variants of the repository:
`sonar_run.py` (dict-based records) and `sonar_blame.py` (dataclass records).
Network transports are modelled as explicit function parameters; Python dicts
are modelled as association lists with Python's insertion-order update
semantics; defensive `dict.get` access is modelled with `Option` fields and
defaulted structure fields.
-/

namespace SonarPipeline

/-- Association-list lookup (first match), mirroring Python `dict.get`. -/
def alookup {α β : Type} [DecidableEq α] : List (α × β) → α → Option β
  | [], _ => none
  | (k, v) :: rest, a => if k = a then some v else alookup rest a

/-- Association-list assignment, mirroring Python `d[k] = v`: replace the
value in place when the key exists, otherwise append at the end. -/
def adSet {α β : Type} [DecidableEq α] : List (α × β) → α → β → List (α × β)
  | [], k, v => [(k, v)]
  | (k', v') :: rest, k, v =>
    if k' = k then (k, v) :: rest else (k', v') :: adSet rest k v

/-- Association-list key removal, mirroring Python `d.pop(k)`. -/
def aRemove {α β : Type} [DecidableEq α] : List (α × β) → α → List (α × β)
  | [], _ => []
  | (k', v') :: rest, a =>
    if k' = a then aRemove rest a else (k', v') :: aRemove rest a

/-- Structured text range of an issue (`textRange` JSON object). -/
structure TextRange where
  startLine : Option Int := none
  deriving Repr, DecidableEq

/-- A raw issue record as returned by `/api/issues/search`.  String fields
are read defensively (`issue.get(k, "")`), absent values become `""`;
`line`/`textRange` distinguish absence via `Option`. -/
structure Issue where
  key : String := ""
  rule : String := ""
  severity : String := ""
  type : String := ""
  component : String := ""
  message : String := ""
  author : String := ""
  assignee : String := ""
  status : String := ""
  creationDate : String := ""
  updateDate : String := ""
  effort : String := ""
  tags : List String := []
  project : String := ""
  line : Option Int := none
  textRange : Option TextRange := none
  branch : Option String := none
  pullRequest : Option String := none
  deriving Repr, DecidableEq

/-- Python truthiness of an optional integer: `None` and `0` are falsy. -/
def pyTruthyInt : Option Int → Bool
  | none => false
  | some n => n != 0

/-- `issue.get("textRange", {}).get("startLine")`. -/
def trStartLine (it : Issue) : Option Int :=
  it.textRange.bind TextRange.startLine

/-- Line extraction of the dict variant (`sonar_run.py`, used in
`collect_line_ranges_by_component` and `enrich_with_scm`): prefer
`textRange.startLine`, fall back to the flat `line` field. -/
def extractLineRun (it : Issue) : Option Int :=
  match trStartLine it with
  | some l => some l
  | none => it.line

/-- Line extraction of the dataclass variant (`sonar_blame.py`, line 206):
`issue.get("line") or issue.get("textRange", {}).get("startLine")` — a
truthy flat `line` wins, else the structured start line. -/
def extractLineBlame (it : Issue) : Option Int :=
  if pyTruthyInt it.line then it.line else trStartLine it

/-- ComponentContext: the `(componentKey, branch, pullRequest)` grouping key. -/
structure Ctx where
  comp : String
  branch : Option String
  pr : Option String
  deriving Repr, DecidableEq

/-- Parameters of one `/api/sources/scm` request made by `sonar_run.py`. -/
structure BlameReq where
  key : String
  fromLine : Int
  toLine : Int
  branch : Option String
  pullRequest : Option String
  deriving Repr, DecidableEq

/-- The context a blame request belongs to. -/
def reqCtx (req : BlameReq) : Ctx :=
  ⟨req.key, req.branch, req.pullRequest⟩

/-- One object-shaped `scm` entry as consumed by `fetch_scm_for_component`. -/
structure ScmObjEntry where
  line : Option Int := none
  author : Option String := none
  date : Option String := none
  revision : Option String := none
  deriving Repr, DecidableEq

/-- Per-line blame value built by `fetch_scm_for_component`. -/
structure ScmInfo where
  author : Option String
  date : Option String
  revision : Option String
  deriving Repr, DecidableEq

/-- A `/api/sources/scm` HTTP response as seen by `sonar_run.py`. -/
structure RunScmResponse where
  status : Nat
  scm : List ScmObjEntry := []
  deriving Repr, DecidableEq

/-- `fetch_scm_for_component` (`sonar_run.py` 164-193): non-200 responses
yield an empty table; entries without a `line` are skipped; later entries
for the same line overwrite earlier ones. -/
def fetch_scm_for_component (server : BlameReq → RunScmResponse) (req : BlameReq) :
    List (Int × ScmInfo) :=
  if (server req).status ≠ 200 then []
  else
    (server req).scm.foldl
      (fun by_line e =>
        match e.line with
        | none => by_line
        | some ln => adSet by_line ln ⟨e.author, e.date, e.revision⟩)
      []

/-- Bool guard of `sonar_run.py`: an issue contributes to grouping when it
has a truthy component and a derivable line (`line is None` checks only). -/
def lineBearingRun (it : Issue) : Bool :=
  (it.component != "") && (extractLineRun it).isSome

/-- The distinct `(component, branch, pullRequest)` contexts collected in
`enrich_with_scm` (`comp_contexts` set; branch/PR come from the global
query parameters). -/
def runContexts (bp pp : Option String) (issues : List Issue) : List Ctx :=
  ((issues.filter lineBearingRun).map (fun it => (⟨it.component, bp, pp⟩ : Ctx))).dedup

/-- Lines of all grouped issues sharing one component, in issue order. -/
def compLines (issues : List Issue) (c : String) : List Int :=
  (issues.filter (fun it => it.component == c)).filterMap extractLineRun

/-- `if line < r[0]: r[0] = line; if line > r[1]: r[1] = line`. -/
def rangeStep (r : Int × Int) (l : Int) : Int × Int :=
  (min r.1 l, max r.2 l)

/-- The `grouped_ranges` fold of `enrich_with_scm`: starts from the
sentinel `[10**9, -1]` and widens via `<`/`>` comparisons. -/
def rangeOf (issues : List Issue) (c : String) : Int × Int :=
  (compLines issues c).foldl rangeStep (1000000000, -1)

/-- The blame request `enrich_with_scm` issues for one context, `none` when
the sentinel guard `r[1] < r[0] or r[0] == 10**9` skips the fetch. -/
def ctxRequest (issues : List Issue) (c : Ctx) : Option BlameReq :=
  if (rangeOf issues c.comp).2 < (rangeOf issues c.comp).1
      ∨ (rangeOf issues c.comp).1 = 1000000000 then none
  else some ⟨c.comp, (rangeOf issues c.comp).1, (rangeOf issues c.comp).2, c.branch, c.pr⟩

/-- All blame requests `enrich_with_scm` makes, one pass over the contexts. -/
def runRequests (bp pp : Option String) (issues : List Issue) : List BlameReq :=
  (runContexts bp pp issues).filterMap (ctxRequest issues)

/-- The `blame_cache` of `enrich_with_scm`: context ↦ per-line table. -/
def blameCacheRun (server : BlameReq → RunScmResponse) (bp pp : Option String)
    (issues : List Issue) : List (Ctx × List (Int × ScmInfo)) :=
  (runContexts bp pp issues).filterMap
    (fun c => (ctxRequest issues c).map (fun req => (c, fetch_scm_for_component server req)))

/-- One output record of `enrich_with_scm` (dict rows of `sonar_run.py`). -/
structure EnrichedRow where
  issueKey : String
  rule : String
  severity : String
  type : String
  message : String
  project : String
  component : String
  line : Option Int
  scm_author : Option String
  scm_revision : Option String
  scm_date : Option String
  assignee : String
  status : String
  deriving Repr, DecidableEq

/-- `info = blame_cache.get((comp, br, pr), {}).get(line)` guarded by
`if comp and line is not None`. -/
def rowInfo (cache : List (Ctx × List (Int × ScmInfo))) (bp pp : Option String)
    (it : Issue) : Option ScmInfo :=
  match extractLineRun it with
  | none => none
  | some l =>
    if it.component = "" then none
    else alookup ((alookup cache ⟨it.component, bp, pp⟩).getD []) l

/-- The merge step of `enrich_with_scm` for one issue: look the blame entry
up at the issue's context and line, defaulting every scm field to `None`. -/
def rowOf (cache : List (Ctx × List (Int × ScmInfo))) (bp pp : Option String)
    (it : Issue) : EnrichedRow :=
  { issueKey := it.key, rule := it.rule, severity := it.severity, type := it.type,
    message := it.message, project := it.project, component := it.component,
    line := extractLineRun it,
    scm_author := (rowInfo cache bp pp it).bind ScmInfo.author,
    scm_revision := (rowInfo cache bp pp it).bind ScmInfo.revision,
    scm_date := (rowInfo cache bp pp it).bind ScmInfo.date,
    assignee := it.assignee, status := it.status }

/-- `enrich_with_scm` (`sonar_run.py` 196-271): group, fetch blame once per
context, then merge — one row per input issue. -/
def enrich_with_scm (server : BlameReq → RunScmResponse) (issues : List Issue)
    (branch_param pr_param : Option String) : List EnrichedRow :=
  issues.map (rowOf (blameCacheRun server branch_param pr_param issues) branch_param pr_param)

/-- Per-line SCM blame detail from `/api/sources/scm` (dataclass variant). -/
structure BlameInfo where
  revision : String := ""
  commit_author : String := ""
  commit_date : String := ""
  deriving Repr, DecidableEq

/-- A `/api/sources/scm` HTTP response as seen by `sonar_blame.py`: `scm`
entries are positional arrays, modelled as the line number plus the
remaining cells. -/
structure BlameScmResponse where
  status : Nat
  scm : List (Int × List String) := []
  deriving Repr, DecidableEq

/-- `SonarQubeClient.get_scm_blame` (`sonar_blame.py` 146-176): an HTTP
error status (`raise_for_status`, 4xx/5xx) yields an empty table; otherwise
each positional entry `[line, revision, author, date]` is decoded with
missing trailing cells defaulting to `""`. The client always fetches from
line 1 with no upper bound, so the request is keyed by component only. -/
def get_scm_blame (server : String → BlameScmResponse) (component_key : String) :
    List (Int × BlameInfo) :=
  if 400 ≤ (server component_key).status then []
  else
    (server component_key).scm.foldl
      (fun result e =>
        adSet result e.1 ⟨e.2.getD 0 "", e.2.getD 1 "", e.2.getD 2 ""⟩)
      []

/-- An issue merged with its SCM blame info (dataclass variant). -/
structure EnrichedIssue where
  key : String
  rule : String
  severity : String
  type : String
  component : String
  file_path : String
  line : Option Int
  message : String
  author : String
  assignee : String
  status : String
  creation_date : String
  update_date : String
  effort : String
  tags : String
  blame_revision : String := ""
  blame_author : String := ""
  blame_date : String := ""
  deriving Repr, DecidableEq

/-- `_file_path_from_component`: the part after the first `:`. -/
def filePathFromComponent (c : String) : String :=
  match c.splitOn ":" with
  | [] => c
  | [_] => c
  | _ :: rest => String.intercalate ":" rest

/-- The base `EnrichedIssue` built in `enrich_issues` before blame fields
are filled in (blame fields keep their `""` defaults). -/
def mkBase (it : Issue) : EnrichedIssue :=
  { key := it.key, rule := it.rule, severity := it.severity, type := it.type,
    component := it.component, file_path := filePathFromComponent it.component,
    line := extractLineBlame it, message := it.message, author := it.author,
    assignee := it.assignee, status := it.status, creation_date := it.creationDate,
    update_date := it.updateDate, effort := it.effort,
    tags := String.intercalate "," it.tags }

/-- State threaded through the `enrich_issues` loop: output list, the
per-component `blame_cache`, and the components fetched so far. -/
structure BlameState where
  enriched : List EnrichedIssue
  cache : List (String × List (Int × BlameInfo))
  calls : List String
  deriving Repr, DecidableEq

/-- The cache-or-fetch decision of `enrich_issues`: the blame endpoint is
consulted (and the call recorded) only when the component is not cached. -/
def enrichCacheCalls (bserver : String → BlameScmResponse) (st : BlameState)
    (comp : String) : List (String × List (Int × BlameInfo)) × List String :=
  match alookup st.cache comp with
  | some _ => (st.cache, st.calls)
  | none => (adSet st.cache comp (get_scm_blame bserver comp), st.calls ++ [comp])

/-- `blame = blame_cache.get(component, {}).get(line); if blame: …` — copy
the blame fields onto the record when the exact line has an entry. -/
def attachBlame (ei : EnrichedIssue) (tbl : List (Int × BlameInfo))
    (line : Option Int) : EnrichedIssue :=
  match line with
  | none => ei
  | some l =>
    match alookup tbl l with
    | none => ei
    | some b =>
      { ei with blame_revision := b.revision, blame_author := b.commit_author,
                blame_date := b.commit_date }

/-- One iteration of the `enrich_issues` loop (`sonar_blame.py` 204-241).
The fetch-and-attach branch runs only under the truthiness guard
`fetch_blame and line and component`. -/
def enrichStep (bserver : String → BlameScmResponse) (fetch_blame : Bool)
    (st : BlameState) (issue : Issue) : BlameState :=
  if fetch_blame && pyTruthyInt (extractLineBlame issue) && (issue.component != "") then
    BlameState.mk
      (st.enriched ++ [attachBlame (mkBase issue)
        ((alookup (enrichCacheCalls bserver st issue.component).1 issue.component).getD [])
        (extractLineBlame issue)])
      (enrichCacheCalls bserver st issue.component).1
      (enrichCacheCalls bserver st issue.component).2
  else
    ⟨st.enriched ++ [mkBase issue], st.cache, st.calls⟩

/-- `enrich_issues` (`sonar_blame.py` 192-243). -/
def enrich_issues (bserver : String → BlameScmResponse) (raw_issues : List Issue)
    (fetch_blame : Bool) : BlameState :=
  raw_issues.foldl (enrichStep bserver fetch_blame) ⟨[], [], []⟩

/-- `ranges[key]` maintenance in `collect_line_ranges_by_component`: a new
key starts at `[line, line]`, an existing one widens its min/max in place. -/
def updateRange : List (Ctx × Int × Int) → Ctx → Int → List (Ctx × Int × Int)
  | [], k, l => [(k, l, l)]
  | (k', r) :: rest, k, l =>
    if k' = k then (k', min r.1 l, max r.2 l) :: rest
    else (k', r) :: updateRange rest k l

/-- The grouping key of an issue in `collect_line_ranges_by_component`
(branch/PR read from the issue itself, absent in practice). -/
def ctxOfIssue (it : Issue) : Ctx :=
  ⟨it.component, it.branch, it.pullRequest⟩

/-- One loop iteration of `collect_line_ranges_by_component`: skip issues
without a truthy component or without a derivable line. -/
def rangesStep (ranges : List (Ctx × Int × Int)) (it : Issue) : List (Ctx × Int × Int) :=
  if it.component = "" then ranges
  else
    match extractLineRun it with
    | none => ranges
    | some l => updateRange ranges (ctxOfIssue it) l

/-- `collect_line_ranges_by_component` (`sonar_run.py` 127-161). -/
def collect_line_ranges_by_component (issues : List Issue) : List (Ctx × Int × Int) :=
  issues.foldl rangesStep []

/-- One `/api/issues/search` response page: the `issues` array and the
reported total (`paging.total` / `total`, absent allowed). -/
structure SearchResponse where
  issues : List Issue := []
  total : Option Nat := none
  deriving Repr, DecidableEq

/-- The pagination loop of `SonarQubeClient.get_issues` (`sonar_blame.py`
125-141), with explicit fuel.  Returns accumulated issues, the pages
requested from the current position on, and whether the loop exited (the
real loop has no fuel; `false` models non-termination within the budget).
The only exit is `len(all_issues) >= data.get("total", 0)`. -/
def getIssuesAux (server : Nat → SearchResponse) :
    Nat → Nat → List Issue → List Issue × List Nat × Bool
  | 0, _, acc => (acc, [], false)
  | fuel + 1, page, acc =>
    if (acc ++ (server page).issues).length ≥ ((server page).total).getD 0 then
      (acc ++ (server page).issues, [page], true)
    else
      ((getIssuesAux server fuel (page + 1) (acc ++ (server page).issues)).1,
       page :: (getIssuesAux server fuel (page + 1) (acc ++ (server page).issues)).2.1,
       (getIssuesAux server fuel (page + 1) (acc ++ (server page).issues)).2.2)

/-- `SonarQubeClient.get_issues`, starting at page 1. -/
def get_issues (server : Nat → SearchResponse) (fuel : Nat) :
    List Issue × List Nat × Bool :=
  getIssuesAux server fuel 1 []

/-- `total = paging.get("total", len(issues))` of `fetch_all_issues`:
absent totals default to the accumulated count. -/
def runTotal (server : Nat → SearchResponse) (page : Nat) (acc2 : List Issue) : Nat :=
  ((server page).total).getD acc2.length

/-- `pages = (total + ps - 1) // ps if ps else 1`. -/
def runPages (ps total : Nat) : Nat :=
  if ps = 0 then 1 else (total + ps - 1) / ps

/-- The pagination loop of `fetch_all_issues` (`sonar_run.py` 98-124):
`total` defaults to the accumulated count, `pages = ceil(total / ps)`, and
the loop exits on `page >= pages or not batch`. -/
def fetchAllAux (server : Nat → SearchResponse) (ps : Nat) :
    Nat → Nat → List Issue → List Issue × List Nat × Bool
  | 0, _, acc => (acc, [], false)
  | fuel + 1, page, acc =>
    if page ≥ runPages ps (runTotal server page (acc ++ (server page).issues))
        ∨ (server page).issues = [] then
      (acc ++ (server page).issues, [page], true)
    else
      ((fetchAllAux server ps fuel (page + 1) (acc ++ (server page).issues)).1,
       page :: (fetchAllAux server ps fuel (page + 1) (acc ++ (server page).issues)).2.1,
       (fetchAllAux server ps fuel (page + 1) (acc ++ (server page).issues)).2.2)

/-- `fetch_all_issues`, starting at page 1. -/
def fetch_all_issues (server : Nat → SearchResponse) (ps : Nat) (fuel : Nat) :
    List Issue × List Nat × Bool :=
  fetchAllAux server ps fuel 1 []

/-- `ISSUES_SEARCH_ALLOWED_PARAMS` of `sonar_run.py` 35-41. -/
def ISSUES_SEARCH_ALLOWED_PARAMS : List String :=
  ["projects", "componentKeys", "resolved", "severities", "types", "rules", "tags",
   "assignees", "authors", "createdAfter", "createdBefore", "statuses",
   "resolutions", "branch", "pullRequest", "ps", "p", "sinceLeakPeriod",
   "q", "languages", "directories", "files", "impactSeverities", "impactSoftwareQualities",
   "sort", "asc", "s"]

/-- One iteration of the mapping loop in `parse_issues_url`: rename `id` to
`projects`, keep whitelisted keys, map `assignee`/`author` to their plural
forms, drop everything else.  Multi-valued parameters are comma-joined. -/
def translateStep (mapped : List (String × String)) (kv : String × List String) :
    List (String × String) :=
  if kv.2 = [] then mapped
  else
    let val := String.intercalate "," kv.2
    if kv.1 = "id" then adSet mapped "projects" val
    else if kv.1 ∈ ISSUES_SEARCH_ALLOWED_PARAMS then adSet mapped kv.1 val
    else if kv.1 = "assignee" then adSet mapped "assignees" val
    else if kv.1 = "author" then adSet mapped "authors" val
    else mapped

/-- `if k not in mapped: mapped[k] = v` — the `ps`/`p` defaulting. -/
def withDefault (m : List (String × String)) (k v : String) : List (String × String) :=
  if (alookup m k).isSome then m else adSet m k v

/-- The query-parameter mapping of `parse_issues_url` (`sonar_run.py`
43-84), applied to the parsed query string (key ↦ value list). -/
def parse_issues_url_params (q : List (String × List String)) : List (String × String) :=
  withDefault (withDefault (q.foldl translateStep []) "ps" "500") "p" "1"

/-- `parse_qs` flattening of `parse_sonarqube_url` (`sonar_blame.py` 75-76):
a single value stays itself, several are comma-joined. -/
def flattenParams (q : List (String × List String)) : List (String × String) :=
  q.map (fun p => (p.1, String.intercalate "," p.2))

/-- `if old in params and new not in params: params[new] = params.pop(old)` —
the renaming step of `parse_sonarqube_url`. -/
def renameKey (params : List (String × String)) (oldKey newKey : String) :
    List (String × String) :=
  if (alookup params oldKey).isSome ∧ (alookup params newKey).isNone then
    adSet (aRemove params oldKey) newKey ((alookup params oldKey).getD "")
  else params

/-- The query-parameter normalisation of `parse_sonarqube_url`
(`sonar_blame.py` 65-84): only renames `id`/`projects` to `componentKeys`;
every other key is kept as is. -/
def parse_sonarqube_url_params (q : List (String × List String)) : List (String × String) :=
  renameKey (renameKey (flattenParams q) "id" "componentKeys") "projects" "componentKeys"

/-- An `scm` response entry in either documented encoding: a positional
array `[line, revision, author, date]` or an object
`{line, author, date, revision}`. -/
inductive ScmEntry where
  | arr (line : Int) (cells : List String)
  | obj (line : Option Int) (author : Option String) (date : Option String)
        (revision : Option String)
  deriving Repr, DecidableEq

/-- The decoding loop of `get_scm_blame` (`sonar_blame.py` 166-176) over
arbitrary entries: `int(entry[0])`, `entry[1]`… work on a positional array;
on an object entry the subscript raises `KeyError` (`none`). -/
def decodeBlameAux : List (Int × BlameInfo) → List ScmEntry → Option (List (Int × BlameInfo))
  | result, [] => some result
  | result, ScmEntry.arr l cells :: rest =>
    decodeBlameAux (adSet result l ⟨cells.getD 0 "", cells.getD 1 "", cells.getD 2 ""⟩) rest
  | _, ScmEntry.obj _ _ _ _ :: _ => none

/-- Decoder of the dataclass variant. -/
def decode_scm_blame (entries : List ScmEntry) : Option (List (Int × BlameInfo)) :=
  decodeBlameAux [] entries

/-- The decoding loop of `fetch_scm_for_component` (`sonar_run.py` 180-193)
over arbitrary entries: `e.get("line")`… works on an object entry (skipped
when `line` is absent); on a positional array `.get` raises
`AttributeError` (`none`). -/
def decodeRunAux : List (Int × ScmInfo) → List ScmEntry → Option (List (Int × ScmInfo))
  | by_line, [] => some by_line
  | _, ScmEntry.arr _ _ :: _ => none
  | by_line, ScmEntry.obj l a d r :: rest =>
    match l with
    | none => decodeRunAux by_line rest
    | some ln => decodeRunAux (adSet by_line ln ⟨a, d, r⟩) rest

/-- Decoder of the dict variant. -/
def decode_scm_run (entries : List ScmEntry) : Option (List (Int × ScmInfo)) :=
  decodeRunAux [] entries

/-- Array encoding of blame data `(line, revision, author, date)`. -/
def arrEnc (e : Int × String × String × String) : ScmEntry :=
  ScmEntry.arr e.1 [e.2.1, e.2.2.1, e.2.2.2]

/-- Object encoding of the same blame data. -/
def objEnc (e : Int × String × String × String) : ScmEntry :=
  ScmEntry.obj (some e.1) (some e.2.2.1) (some e.2.2.2) (some e.2.1)

/-- The per-line table both decoders should agree on, in `BlameInfo` form. -/
def blameTableOf (l : List (Int × String × String × String)) : List (Int × BlameInfo) :=
  l.foldl (fun a e => adSet a e.1 ⟨e.2.1, e.2.2.1, e.2.2.2⟩) []

/-- The dict-variant view of a dataclass-variant blame entry. -/
def blameToInfo (b : BlameInfo) : ScmInfo :=
  ⟨some b.commit_author, some b.commit_date, some b.revision⟩

/-- An issue carrying both a flat `line` and a structured start line. -/
def cexIssue : Issue :=
  { component := "p:a.py", line := some 5, textRange := some { startLine := some 10 } }

/-- A blame transport holding data only at line 10 of `p:a.py`. -/
def cexBlameServer : String → BlameScmResponse :=
  fun _ => { status := 200, scm := [(10, ["rev1", "alice", "2020-01-01"])] }

/-- Scenario issue `I1` at line 10 of `proj:a.py`. -/
def issueI1 : Issue := { key := "I1", component := "proj:a.py", line := some 10 }

/-- Scenario issue `I2` at line 40 of the same file. -/
def issueI2 : Issue := { key := "I2", component := "proj:a.py", line := some 40 }

/-- The two-issue scenario list. -/
def scenarioIssues : List Issue := [issueI1, issueI2]

/-- The single expected blame request of the scenario. -/
def scenarioReq : BlameReq := ⟨"proj:a.py", 10, 40, none, none⟩

/-- Scenario blame stub: entries only at lines 10 and 25 for range [10,40]. -/
def scenarioServer : BlameReq → RunScmResponse := fun req =>
  if req = scenarioReq then
    { status := 200,
      scm := [{ line := some 10, author := some "alice", date := some "2020-01-01",
                revision := some "rev1" },
              { line := some 25, author := some "bob", date := some "2020-01-02",
                revision := some "rev2" }] }
  else { status := 404 }

/-- Parsed query of `id=myproj&resolved=false&foo=bar`. -/
def qScenario : List (String × List String) :=
  [("id", ["myproj"]), ("resolved", ["false"]), ("foo", ["bar"])]

/-- A search endpoint that always reports total 5 but returns no issues. -/
def emptyTotalServer : Nat → SearchResponse :=
  fun _ => { issues := [], total := some 5 }

/-- A line-bearing issue whose line equals the `10**9` range sentinel. -/
def hugeLineIssue : Issue := { component := "big.py", line := some 1000000000 }

/-- An issue whose only line information is a structured start line of 0. -/
def zeroLineIssue : Issue := { component := "x:y", textRange := some { startLine := some 0 } }

/-- A blame transport that always fails with HTTP 403. -/
def failBlameServer : BlameReq → RunScmResponse :=
  fun _ => { status := 403, scm := [{ line := some 1, author := some "x" }] }

/-- A dataclass-variant blame transport that always fails with HTTP 404. -/
def failScmServer : String → BlameScmResponse :=
  fun _ => { status := 404, scm := [(1, ["rev", "a", "d"])] }

end SonarPipeline

namespace SonarPipeline

theorem alookup_adSet {α β : Type} [DecidableEq α] (m : List (α × β)) (a k : α) (v : β) :
    alookup (adSet m a v) k = if k = a then some v else alookup m k := by
  induction m with
  | nil =>
    simp only [adSet, alookup]
    by_cases h : a = k
    · subst h
      simp
    · rw [if_neg h, if_neg (fun hh => h hh.symm)]
  | cons p rest ih =>
    obtain ⟨k', v'⟩ := p
    simp only [adSet]
    by_cases hk : k' = a
    · subst hk
      simp only [if_pos rfl, alookup]
      by_cases h : k' = k
      · subst h
        simp
      · rw [if_neg h, if_neg (fun hh => h hh.symm), if_neg h]
    · rw [if_neg hk]
      simp only [alookup]
      by_cases h : k' = k
      · subst h
        rw [if_pos rfl, if_pos rfl, if_neg hk]
      · rw [if_neg h, if_neg h, ih]

theorem alookup_aRemove {α β : Type} [DecidableEq α] (m : List (α × β)) (a k : α)
    (h : k ≠ a) : alookup (aRemove m a) k = alookup m k := by
  induction m with
  | nil => rfl
  | cons p rest ih =>
    obtain ⟨k', v'⟩ := p
    simp only [aRemove]
    by_cases hk : k' = a
    · rw [if_pos hk, ih]
      simp only [alookup]
      rw [if_neg (fun hh : k' = k => h (hh.symm.trans hk))]
    · rw [if_neg hk]
      simp only [alookup]
      by_cases h2 : k' = k
      · rw [if_pos h2, if_pos h2]
      · rw [if_neg h2, if_neg h2, ih]

theorem enrichStep_appends_one (bserver : String → BlameScmResponse) (fb : Bool)
    (st : BlameState) (it : Issue) :
    ∃ e, (enrichStep bserver fb st it).enriched = st.enriched ++ [e] := by
  unfold enrichStep
  by_cases h : (fb && pyTruthyInt (extractLineBlame it) && (it.component != "")) = true
  · rw [if_pos h]
    exact ⟨_, rfl⟩
  · rw [if_neg h]
    exact ⟨_, rfl⟩

theorem enrich_foldl_length (bserver : String → BlameScmResponse) (fb : Bool) :
    ∀ (issues : List Issue) (st : BlameState),
      ((issues.foldl (enrichStep bserver fb) st).enriched).length
        = st.enriched.length + issues.length := by
  intro issues
  induction issues with
  | nil => intro st; simp
  | cons it rest ih =>
    intro st
    obtain ⟨e, he⟩ := enrichStep_appends_one bserver fb st it
    simp only [List.foldl_cons]
    rw [ih (enrichStep bserver fb st it), he]
    simp
    omega

/-- C2: the enrichment stage is 1:1 — in both variants the output list has
exactly one record per input issue, for every input including the empty
list; no issue is dropped. -/
theorem enrichment_preserves_cardinality :
    ∀ (server : BlameReq → RunScmResponse) (bserver : String → BlameScmResponse)
      (issues : List Issue) (bp pp : Option String) (fb : Bool),
      (enrich_with_scm server issues bp pp).length = issues.length ∧
      (enrich_issues bserver issues fb).enriched.length = issues.length := by
  intro server bserver issues bp pp fb
  constructor
  · simp [enrich_with_scm]
  · rw [enrich_issues, enrich_foldl_length]
    simp

/-- C10: an issue whose extracted line equals 0 is treated as line-less by
the dataclass variant: the loop iteration triggers no blame fetch for it
(cache and call list unchanged), its blame fields stay empty strings, and
it still yields exactly one enriched record. -/
theorem zero_line_is_lineless (bserver : String → BlameScmResponse) (fb : Bool)
    (st : BlameState) (it : Issue) (h : extractLineBlame it = some 0) :
    enrichStep bserver fb st it
      = { enriched := st.enriched ++ [mkBase it], cache := st.cache, calls := st.calls } ∧
    (mkBase it).blame_revision = "" ∧ (mkBase it).blame_author = "" ∧
    (mkBase it).blame_date = "" := by
  refine ⟨?_, rfl, rfl, rfl⟩
  have hguard : (fb && pyTruthyInt (extractLineBlame it) && (it.component != "")) = false := by
    rw [h]
    simp [pyTruthyInt]
  unfold enrichStep
  rw [hguard]
  simp

/-- C10 witness: a concrete issue whose structured start line is 0. -/
theorem zero_line_is_lineless_witness :
    enrichStep cexBlameServer true ⟨[], [], []⟩ zeroLineIssue
      = { enriched := [] ++ [mkBase zeroLineIssue], cache := [], calls := [] } ∧
    (mkBase zeroLineIssue).blame_revision = "" ∧
    (mkBase zeroLineIssue).blame_author = "" ∧
    (mkBase zeroLineIssue).blame_date = "" :=
  zero_line_is_lineless cexBlameServer true ⟨[], [], []⟩ zeroLineIssue (by decide)

/-- C3 counterexample: on an issue carrying flat `line = 5` and structured
`textRange.startLine = 10`, the dataclass variant's extraction — the one
its blame lookup uses — returns the flat 5, not the structured 10, so the
merger looks blame up at line 5 and misses the entry stored at line 10. -/
theorem flat_line_preferred_cex :
    trStartLine cexIssue = some 10 ∧
    extractLineBlame cexIssue = some 5 ∧
    extractLineBlame cexIssue ≠ some 10 ∧
    (enrich_issues cexBlameServer [cexIssue] true).enriched.map EnrichedIssue.blame_author
      = [""] ∧
    (enrich_issues cexBlameServer [cexIssue] true).calls = ["p:a.py"] := by
  refine ⟨by decide, by decide, by decide, by decide, by decide⟩

/-- C3 amended: the dict variant (grouper and merger) extracts the
structured start line, falling back to the flat field; the dataclass
variant prefers a truthy flat `line`, falling back to the structured start
line; an issue with neither line is excluded from grouping but still yields
an enriched record with no blame, in both variants. -/
theorem line_extraction_amended :
    (∀ (it : Issue) (l : Int), trStartLine it = some l → extractLineRun it = some l) ∧
    (∀ it : Issue, trStartLine it = none → extractLineRun it = it.line) ∧
    (∀ it : Issue, pyTruthyInt it.line = true → extractLineBlame it = it.line) ∧
    (∀ it : Issue, pyTruthyInt it.line = false → extractLineBlame it = trStartLine it) ∧
    (∀ (ranges : List (Ctx × Int × Int)) (it : Issue),
       extractLineRun it = none → rangesStep ranges it = ranges) ∧
    (∀ (cache : List (Ctx × List (Int × ScmInfo))) (bp pp : Option String) (it : Issue),
       extractLineRun it = none →
       (rowOf cache bp pp it).scm_author = none ∧
       (rowOf cache bp pp it).scm_revision = none ∧
       (rowOf cache bp pp it).scm_date = none) ∧
    (∀ (bserver : String → BlameScmResponse) (fb : Bool) (st : BlameState) (it : Issue),
       extractLineBlame it = none →
       enrichStep bserver fb st it
         = { enriched := st.enriched ++ [mkBase it], cache := st.cache, calls := st.calls }) := by
  refine ⟨?_, ?_, ?_, ?_, ?_, ?_, ?_⟩
  · intro it l h
    unfold extractLineRun
    rw [h]
  · intro it h
    unfold extractLineRun
    rw [h]
  · intro it h
    unfold extractLineBlame
    rw [h]
    simp
  · intro it h
    unfold extractLineBlame
    rw [h]
    simp
  · intro ranges it h
    unfold rangesStep
    by_cases hc : it.component = ""
    · rw [if_pos hc]
    · rw [if_neg hc, h]
  · intro cache bp pp it h
    have hinfo : rowInfo cache bp pp it = none := by
      unfold rowInfo
      rw [h]
    unfold rowOf
    rw [hinfo]
    exact ⟨rfl, rfl, rfl⟩
  · intro bserver fb st it h
    have hguard : (fb && pyTruthyInt (extractLineBlame it) && (it.component != "")) = false := by
      rw [h]
      simp [pyTruthyInt]
    unfold enrichStep
    rw [hguard]
    simp

/-- C3 amended witness: the structured start line 10 wins in the dict
variant on the very issue of the counterexample. -/
theorem line_extraction_amended_witness :
    extractLineRun cexIssue = some 10 :=
  line_extraction_amended.1 cexIssue 10 (by decide)

theorem translateStep_lookup (m : List (String × String)) (kv : String × List String)
    (k : String) (h : k ∉ ISSUES_SEARCH_ALLOWED_PARAMS) :
    alookup (translateStep m kv) k = alookup m k := by
  have hne : ∀ s, s ∈ ISSUES_SEARCH_ALLOWED_PARAMS → k ≠ s := by
    intro s hs hk
    rw [hk] at h
    exact h hs
  unfold translateStep
  by_cases h0 : kv.2 = []
  · rw [if_pos h0]
  · rw [if_neg h0]
    by_cases h1 : kv.1 = "id"
    · rw [if_pos h1, alookup_adSet, if_neg (hne "projects" (by decide))]
    · rw [if_neg h1]
      by_cases h2 : kv.1 ∈ ISSUES_SEARCH_ALLOWED_PARAMS
      · rw [if_pos h2, alookup_adSet, if_neg (hne kv.1 h2)]
      · rw [if_neg h2]
        by_cases h3 : kv.1 = "assignee"
        · rw [if_pos h3, alookup_adSet, if_neg (hne "assignees" (by decide))]
        · rw [if_neg h3]
          by_cases h4 : kv.1 = "author"
          · rw [if_pos h4, alookup_adSet, if_neg (hne "authors" (by decide))]
          · rw [if_neg h4]

theorem foldl_translateStep_lookup (k : String) (h : k ∉ ISSUES_SEARCH_ALLOWED_PARAMS) :
    ∀ (q : List (String × List String)) (m : List (String × String)),
      alookup (q.foldl translateStep m) k = alookup m k := by
  intro q
  induction q with
  | nil => intro m; rfl
  | cons kv rest ih =>
    intro m
    rw [List.foldl_cons, ih, translateStep_lookup m kv k h]

theorem alookup_withDefault (m : List (String × String)) (a v k : String)
    (h : k ≠ a) : alookup (withDefault m a v) k = alookup m k := by
  unfold withDefault
  split
  · rfl
  · rw [alookup_adSet, if_neg h]

theorem alookup_renameKey (params : List (String × String)) (oldKey newKey k : String)
    (h1 : k ≠ oldKey) (h2 : k ≠ newKey) :
    alookup (renameKey params oldKey newKey) k = alookup params k := by
  unfold renameKey
  split
  · rw [alookup_adSet, if_neg h2, alookup_aRemove _ _ _ h1]
  · rfl

/-- C4 counterexample: the dataclass variant's translator keeps the
unrecognized parameter `foo=bar` from `id=myproj&resolved=false&foo=bar`,
so the claim "every key not in the allow-list is dropped" fails on it. -/
theorem translator_keeps_unknown_key_cex :
    alookup (parse_sonarqube_url_params qScenario) "foo" = some "bar" ∧
    "foo" ∉ ISSUES_SEARCH_ALLOWED_PARAMS ∧
    alookup (parse_sonarqube_url_params qScenario) "componentKeys" = some "myproj" := by
  exact ⟨by decide, by decide, by decide⟩

/-- C4 amended: the dict variant's translator maps `id` to `projects` and
drops every key outside the allow-list (so `id=myproj&resolved=false&foo=bar`
yields `projects=myproj`, `resolved=false` and no `foo`); the dataclass
variant's translator only renames `id`/`projects` to `componentKeys` and
keeps every other key, `foo=bar` included. -/
theorem query_translator_amended :
    (∀ (q : List (String × List String)) (k : String),
        k ∉ ISSUES_SEARCH_ALLOWED_PARAMS →
        alookup (parse_issues_url_params q) k = none) ∧
    (alookup (parse_issues_url_params qScenario) "projects" = some "myproj" ∧
     alookup (parse_issues_url_params qScenario) "resolved" = some "false" ∧
     alookup (parse_issues_url_params qScenario) "foo" = none) ∧
    (∀ (q : List (String × List String)) (k : String),
        k ≠ "id" → k ≠ "projects" → k ≠ "componentKeys" →
        alookup (parse_sonarqube_url_params q) k = alookup (flattenParams q) k) := by
  refine ⟨?_, ⟨by decide, by decide, by decide⟩, ?_⟩
  · intro q k h
    have hp : k ≠ "p" := fun hk => h (hk ▸ (by decide : "p" ∈ ISSUES_SEARCH_ALLOWED_PARAMS))
    have hps : k ≠ "ps" := fun hk => h (hk ▸ (by decide : "ps" ∈ ISSUES_SEARCH_ALLOWED_PARAMS))
    unfold parse_issues_url_params
    rw [alookup_withDefault _ _ _ _ hp, alookup_withDefault _ _ _ _ hps,
        foldl_translateStep_lookup k h]
    rfl
  · intro q k h1 h2 h3
    unfold parse_sonarqube_url_params
    rw [alookup_renameKey _ _ _ _ h2 h3, alookup_renameKey _ _ _ _ h1 h3]

/-- C4 amended witness: `foo` is dropped by the dict variant's translator
on the scenario query. -/
theorem query_translator_amended_witness :
    alookup (parse_issues_url_params qScenario) "foo" = none :=
  query_translator_amended.1 qScenario "foo" (by decide)

theorem decodeBlameAux_arr :
    ∀ (l : List (Int × String × String × String)) (acc : List (Int × BlameInfo)),
      decodeBlameAux acc (l.map arrEnc)
        = some (l.foldl (fun a e => adSet a e.1 ⟨e.2.1, e.2.2.1, e.2.2.2⟩) acc) := by
  intro l
  induction l with
  | nil => intro acc; rfl
  | cons e rest ih =>
    intro acc
    have hstep : decodeBlameAux acc ((e :: rest).map arrEnc)
        = decodeBlameAux (adSet acc e.1 ⟨e.2.1, e.2.2.1, e.2.2.2⟩) (rest.map arrEnc) := rfl
    rw [hstep, ih]
    rfl

theorem decodeRunAux_obj :
    ∀ (l : List (Int × String × String × String)) (acc : List (Int × ScmInfo)),
      decodeRunAux acc (l.map objEnc)
        = some (l.foldl
            (fun a e => adSet a e.1 ⟨some e.2.2.1, some e.2.2.2, some e.2.1⟩) acc) := by
  intro l
  induction l with
  | nil => intro acc; rfl
  | cons e rest ih =>
    intro acc
    have hstep : decodeRunAux acc ((e :: rest).map objEnc)
        = decodeRunAux (adSet acc e.1 ⟨some e.2.2.1, some e.2.2.2, some e.2.1⟩)
            (rest.map objEnc) := rfl
    rw [hstep, ih]
    rfl

theorem adSet_map {α β γ : Type} [DecidableEq α] (f : β → γ) :
    ∀ (m : List (α × β)) (k : α) (v : β),
      (adSet m k v).map (fun p => (p.1, f p.2))
        = adSet (m.map (fun p => (p.1, f p.2))) k (f v) := by
  intro m
  induction m with
  | nil => intro k v; rfl
  | cons p rest ih =>
    intro k v
    obtain ⟨k', v'⟩ := p
    by_cases h : k' = k
    · simp [adSet, h]
    · simp [adSet, h, ih]

theorem blameTable_map :
    ∀ (l : List (Int × String × String × String)) (acc : List (Int × BlameInfo)),
      (l.foldl (fun a e => adSet a e.1 ⟨e.2.1, e.2.2.1, e.2.2.2⟩) acc).map
          (fun p => (p.1, blameToInfo p.2))
        = l.foldl (fun a e => adSet a e.1 ⟨some e.2.2.1, some e.2.2.2, some e.2.1⟩)
            (acc.map (fun p => (p.1, blameToInfo p.2))) := by
  intro l
  induction l with
  | nil => intro acc; rfl
  | cons e rest ih =>
    intro acc
    simp only [List.foldl_cons]
    rw [ih, adSet_map]
    rfl

/-- C7 counterexample: each decoder handles exactly one of the two
documented encodings — the dataclass decoder raises (`none`) on an object
entry, the dict decoder raises on a positional-array entry — refuting "the
decoder accepts both encodings and returns the same mapping". -/
theorem scm_decoder_one_encoding_cex :
    decode_scm_blame [ScmEntry.obj (some 10) (some "alice") (some "2020-01-01") (some "rev1")]
      = none ∧
    decode_scm_run [ScmEntry.arr 10 ["rev1", "alice", "2020-01-01"]] = none ∧
    decode_scm_blame [ScmEntry.arr 10 ["rev1", "alice", "2020-01-01"]]
      = some [(10, ⟨"rev1", "alice", "2020-01-01"⟩)] ∧
    decode_scm_run [ScmEntry.obj (some 10) (some "alice") (some "2020-01-01") (some "rev1")]
      = some [(10, ⟨some "alice", some "2020-01-01", some "rev1"⟩)] := by
  exact ⟨rfl, rfl, rfl, rfl⟩

/-- C7 amended: the dataclass decoder accepts exactly the positional-array
encoding and the dict decoder exactly the object encoding; on the two
encodings of the same data they return the same line↦blame mapping; fed an
entry of the other encoding, each decoder fails instead of returning a
mapping. -/
theorem scm_decoders_amended :
    (∀ l : List (Int × String × String × String),
        decode_scm_blame (l.map arrEnc) = some (blameTableOf l) ∧
        decode_scm_run (l.map objEnc)
          = some ((blameTableOf l).map (fun p => (p.1, blameToInfo p.2)))) ∧
    (∀ (lo : Option Int) (a d r : Option String) (rest : List ScmEntry),
        decode_scm_blame (ScmEntry.obj lo a d r :: rest) = none) ∧
    (∀ (ln : Int) (cells : List String) (rest : List ScmEntry),
        decode_scm_run (ScmEntry.arr ln cells :: rest) = none) := by
  refine ⟨?_, ?_, ?_⟩
  · intro l
    refine ⟨decodeBlameAux_arr l [], ?_⟩
    have h1 : decode_scm_run (l.map objEnc)
        = some (l.foldl
            (fun a e => adSet a e.1 ⟨some e.2.2.1, some e.2.2.2, some e.2.1⟩) []) :=
      decodeRunAux_obj l []
    rw [h1]
    have h2 := blameTable_map l []
    simp only [List.map_nil] at h2
    rw [blameTableOf, h2]
  · intro lo a d r rest
    rfl
  · intro ln cells rest
    rfl

theorem getIssuesAux_stops (server : Nat → SearchResponse) (fuel page : Nat)
    (acc : List Issue)
    (h : (acc ++ (server page).issues).length ≥ ((server page).total).getD 0) :
    getIssuesAux server (fuel + 1) page acc = (acc ++ (server page).issues, [page], true) := by
  simp only [getIssuesAux]
  rw [if_pos h]

theorem getIssuesAux_continues (server : Nat → SearchResponse) (fuel page : Nat)
    (acc : List Issue)
    (h : (acc ++ (server page).issues).length < ((server page).total).getD 0) :
    (getIssuesAux server (fuel + 1) page acc).2.1
      = page :: (getIssuesAux server fuel (page + 1) (acc ++ (server page).issues)).2.1 := by
  simp only [getIssuesAux]
  rw [if_neg (not_le.mpr h)]

theorem fetchAllAux_stops_on_empty (server : Nat → SearchResponse) (ps fuel page : Nat)
    (acc : List Issue) (h : (server page).issues = []) :
    fetchAllAux server ps (fuel + 1) page acc = (acc, [page], true) := by
  simp only [fetchAllAux]
  rw [if_pos (Or.inr h), h, List.append_nil]

theorem fetchAllAux_stops_on_pages (server : Nat → SearchResponse) (ps fuel page : Nat)
    (acc : List Issue)
    (h : page ≥ runPages ps (runTotal server page (acc ++ (server page).issues))) :
    fetchAllAux server ps (fuel + 1) page acc = (acc ++ (server page).issues, [page], true) := by
  simp only [fetchAllAux]
  rw [if_pos (Or.inl h)]

theorem fetchAllAux_req_ge (server : Nat → SearchResponse) (ps : Nat) :
    ∀ (fuel page : Nat) (acc : List Issue) (q : Nat),
      q ∈ (fetchAllAux server ps fuel page acc).2.1 → page ≤ q := by
  intro fuel
  induction fuel with
  | zero =>
    intro page acc q hq
    simp [fetchAllAux] at hq
  | succ n ih =>
    intro page acc q hq
    simp only [fetchAllAux] at hq
    by_cases hc : page ≥ runPages ps (runTotal server page (acc ++ (server page).issues))
        ∨ (server page).issues = []
    · rw [if_pos hc] at hq
      simp only [List.mem_singleton] at hq
      omega
    · rw [if_neg hc] at hq
      simp only [List.mem_cons] at hq
      rcases hq with h1 | h2
      · omega
      · have := ih (page + 1) (acc ++ (server page).issues) q h2
        omega

theorem fetchAllAux_not_beyond_empty (server : Nat → SearchResponse) (ps : Nat) :
    ∀ (fuel page : Nat) (acc : List Issue) (q : Nat),
      q ∈ (fetchAllAux server ps fuel page acc).2.1 → (server q).issues = [] →
      q + 1 ∉ (fetchAllAux server ps fuel page acc).2.1 := by
  intro fuel
  induction fuel with
  | zero =>
    intro page acc q hq
    simp [fetchAllAux] at hq
  | succ n ih =>
    intro page acc q hq hempty hq1
    simp only [fetchAllAux] at hq hq1
    by_cases hc : page ≥ runPages ps (runTotal server page (acc ++ (server page).issues))
        ∨ (server page).issues = []
    · rw [if_pos hc] at hq hq1
      simp only [List.mem_singleton] at hq hq1
      omega
    · rw [if_neg hc] at hq hq1
      have hc2 : ¬ (server page).issues = [] := fun hh => hc (Or.inr hh)
      simp only [List.mem_cons] at hq hq1
      rcases hq with h1 | h2
      · rw [h1] at hempty
        exact hc2 hempty
      · rcases hq1 with g1 | g2
        · have hge := fetchAllAux_req_ge server ps n (page + 1) (acc ++ (server page).issues) q h2
          omega
        · exact ih (page + 1) (acc ++ (server page).issues) q h2 hempty g2

/-- C5 counterexample: against a server that always reports total 5 but
returns zero issues, the dataclass fetcher requests page 2 after page 1
returned zero results (and has not stopped), refuting "stops as soon as the
most recent page returned zero issues; never requests a page beyond one
that returned zero results". -/
theorem pagination_beyond_empty_page_cex :
    (emptyTotalServer 1).issues = [] ∧
    (get_issues emptyTotalServer 2).2.1 = [1, 2] ∧
    (get_issues emptyTotalServer 2).2.2 = false := by
  exact ⟨rfl, by decide, by decide⟩

/-- C5 amended: the dict-variant fetcher stops at a page returning zero
issues or when the page number reaches the computed page count
`ceil(total / ps)`, and never requests a page beyond one that returned zero
results; the dataclass-variant fetcher stops exactly when the accumulated
count reaches the reported total and otherwise requests the next page —
even directly after a page that returned zero issues. -/
theorem pagination_termination_amended :
    (∀ (server : Nat → SearchResponse) (ps fuel page : Nat) (acc : List Issue) (q : Nat),
        q ∈ (fetchAllAux server ps fuel page acc).2.1 → (server q).issues = [] →
        q + 1 ∉ (fetchAllAux server ps fuel page acc).2.1) ∧
    (∀ (server : Nat → SearchResponse) (ps fuel page : Nat) (acc : List Issue),
        page ≥ runPages ps (runTotal server page (acc ++ (server page).issues)) →
        fetchAllAux server ps (fuel + 1) page acc
          = (acc ++ (server page).issues, [page], true)) ∧
    (∀ (server : Nat → SearchResponse) (ps fuel page : Nat) (acc : List Issue),
        (server page).issues = [] →
        fetchAllAux server ps (fuel + 1) page acc = (acc, [page], true)) ∧
    (∀ (server : Nat → SearchResponse) (fuel page : Nat) (acc : List Issue),
        (acc ++ (server page).issues).length ≥ ((server page).total).getD 0 →
        getIssuesAux server (fuel + 1) page acc = (acc ++ (server page).issues, [page], true)) ∧
    (∀ (server : Nat → SearchResponse) (fuel page : Nat) (acc : List Issue),
        (acc ++ (server page).issues).length < ((server page).total).getD 0 →
        (getIssuesAux server (fuel + 1) page acc).2.1
          = page :: (getIssuesAux server fuel (page + 1) (acc ++ (server page).issues)).2.1) :=
  ⟨fun server ps fuel page acc q => fetchAllAux_not_beyond_empty server ps fuel page acc q,
   fun server ps fuel page acc => fetchAllAux_stops_on_pages server ps fuel page acc,
   fun server ps fuel page acc => fetchAllAux_stops_on_empty server ps fuel page acc,
   fun server fuel page acc => getIssuesAux_stops server fuel page acc,
   fun server fuel page acc => getIssuesAux_continues server fuel page acc⟩

/-- C5 amended witness: the dict-variant fetcher stops immediately on the
all-empty server. -/
theorem pagination_termination_amended_witness :
    fetchAllAux emptyTotalServer 500 1 1 [] = ([], [1], true) :=
  pagination_termination_amended.2.2.1 emptyTotalServer 500 0 1 [] rfl

theorem ctxRequest_reqCtx (issues : List Issue) (c : Ctx) (req : BlameReq)
    (h : ctxRequest issues c = some req) : reqCtx req = c := by
  unfold ctxRequest at h
  by_cases hg : (rangeOf issues c.comp).2 < (rangeOf issues c.comp).1
      ∨ (rangeOf issues c.comp).1 = 1000000000
  · rw [if_pos hg] at h
    exact absurd h (by simp)
  · rw [if_neg hg] at h
    rw [← Option.some.inj h]
    rfl

theorem map_reqCtx_filterMap (issues : List Issue) :
    ∀ L : List Ctx,
      (L.filterMap (ctxRequest issues)).map reqCtx
        = L.filter (fun c => (ctxRequest issues c).isSome) := by
  intro L
  induction L with
  | nil => rfl
  | cons c rest ih =>
    cases hc : ctxRequest issues c with
    | none => simp [List.filterMap_cons, hc, List.filter_cons, ih]
    | some req =>
      simp [List.filterMap_cons, hc, List.filter_cons, ih, ctxRequest_reqCtx issues c req hc]

theorem enrichStep_calls_cases (bserver : String → BlameScmResponse) (fb : Bool)
    (st : BlameState) (it : Issue) :
    ((enrichStep bserver fb st it).cache = st.cache ∧
     (enrichStep bserver fb st it).calls = st.calls)
    ∨ (alookup st.cache it.component = none ∧
       (fb && pyTruthyInt (extractLineBlame it) && (it.component != "")) = true ∧
       (enrichStep bserver fb st it).cache
         = adSet st.cache it.component (get_scm_blame bserver it.component) ∧
       (enrichStep bserver fb st it).calls = st.calls ++ [it.component]) := by
  by_cases hg : (fb && pyTruthyInt (extractLineBlame it) && (it.component != "")) = true
  · by_cases hl : alookup st.cache it.component = none
    · right
      refine ⟨hl, hg, ?_, ?_⟩
      · unfold enrichStep
        rw [if_pos hg]
        unfold enrichCacheCalls
        rw [hl]
      · unfold enrichStep
        rw [if_pos hg]
        unfold enrichCacheCalls
        rw [hl]
    · obtain ⟨tbl, htbl⟩ := Option.ne_none_iff_exists'.mp hl
      left
      constructor
      · unfold enrichStep
        rw [if_pos hg]
        unfold enrichCacheCalls
        rw [htbl]
      · unfold enrichStep
        rw [if_pos hg]
        unfold enrichCacheCalls
        rw [htbl]
  · left
    constructor
    · unfold enrichStep
      rw [if_neg hg]
    · unfold enrichStep
      rw [if_neg hg]

theorem enrich_calls_nodup_aux (bserver : String → BlameScmResponse) (fb : Bool) :
    ∀ (issues : List Issue) (st : BlameState),
      st.calls.Nodup → (∀ c ∈ st.calls, (alookup st.cache c).isSome) →
      ((issues.foldl (enrichStep bserver fb) st).calls.Nodup ∧
       ∀ c ∈ (issues.foldl (enrichStep bserver fb) st).calls,
         (alookup (issues.foldl (enrichStep bserver fb) st).cache c).isSome) := by
  intro issues
  induction issues with
  | nil =>
    intro st h1 h2
    exact ⟨h1, h2⟩
  | cons it rest ih =>
    intro st h1 h2
    have hstep : (enrichStep bserver fb st it).calls.Nodup ∧
        (∀ c ∈ (enrichStep bserver fb st it).calls,
          (alookup (enrichStep bserver fb st it).cache c).isSome) := by
      rcases enrichStep_calls_cases bserver fb st it with ⟨hc, hl⟩ | ⟨hnone, _, hc, hl⟩
      · rw [hc, hl]
        exact ⟨h1, h2⟩
      · rw [hc, hl]
        constructor
        · rw [List.nodup_append]
          refine ⟨h1, List.nodup_singleton _, ?_⟩
          intro x hx hx1
          simp only [List.mem_singleton] at hx1
          subst hx1
          have hsome := h2 _ hx
          rw [hnone] at hsome
          simp at hsome
        · intro c hc2
          rw [alookup_adSet]
          by_cases hce : c = it.component
          · rw [if_pos hce]
            rfl
          · rw [if_neg hce]
            rcases List.mem_append.mp hc2 with h3 | h3
            · exact h2 c h3
            · simp only [List.mem_singleton] at h3
              exact absurd h3 hce
    exact ih _ hstep.1 hstep.2

theorem enrich_calls_source (bserver : String → BlameScmResponse) (fb : Bool) :
    ∀ (issues : List Issue) (st : BlameState) (c : String),
      c ∈ (issues.foldl (enrichStep bserver fb) st).calls →
      c ∈ st.calls ∨ ∃ it ∈ issues, it.component = c ∧
        pyTruthyInt (extractLineBlame it) = true := by
  intro issues
  induction issues with
  | nil =>
    intro st c h
    exact Or.inl h
  | cons it rest ih =>
    intro st c h
    rcases ih (enrichStep bserver fb st it) c h with h1 | ⟨it2, hm, hcomp, htr⟩
    · rcases enrichStep_calls_cases bserver fb st it with ⟨_, hl⟩ | ⟨_, hg, _, hl⟩
      · rw [hl] at h1
        exact Or.inl h1
      · rw [hl] at h1
        rcases List.mem_append.mp h1 with h2 | h2
        · exact Or.inl h2
        · simp only [List.mem_singleton] at h2
          subst h2
          right
          simp only [Bool.and_eq_true] at hg
          exact ⟨it, List.mem_cons_self _ _, rfl, hg.1.2⟩
    · exact Or.inr ⟨it2, List.mem_cons_of_mem _ hm, hcomp, htr⟩

/-- C1: over any run of either enrichment stage, the blame endpoint is hit
at most once per distinct `(component, branch, pullRequest)` tuple — the
request contexts of the dict variant and the fetched components of the
dataclass variant are duplicate-free — and every request belongs to a tuple
that has at least one line-bearing issue. -/
theorem blame_fetch_at_most_once :
    ∀ (issues : List Issue) (bp pp : Option String)
      (bserver : String → BlameScmResponse) (fb : Bool),
      ((runRequests bp pp issues).map reqCtx).Nodup ∧
      (∀ req ∈ runRequests bp pp issues,
         ∃ it ∈ issues, lineBearingRun it = true ∧ it.component = req.key ∧
           req.branch = bp ∧ req.pullRequest = pp) ∧
      (enrich_issues bserver issues fb).calls.Nodup ∧
      (∀ comp ∈ (enrich_issues bserver issues fb).calls,
         ∃ it ∈ issues, it.component = comp ∧
           pyTruthyInt (extractLineBlame it) = true) := by
  intro issues bp pp bserver fb
  refine ⟨?_, ?_, ?_, ?_⟩
  · rw [runRequests, map_reqCtx_filterMap]
    exact (List.filter_sublist _).nodup (List.nodup_dedup _)
  · intro req hreq
    rw [runRequests] at hreq
    obtain ⟨c, hc, hcr⟩ := List.mem_filterMap.mp hreq
    rw [runContexts, List.mem_dedup] at hc
    obtain ⟨it, hit, hctx⟩ := List.mem_map.mp hc
    obtain ⟨hit2, hbear⟩ := List.mem_filter.mp hit
    have hrc := ctxRequest_reqCtx issues c req hcr
    rw [← hctx] at hrc
    refine ⟨it, hit2, hbear, ?_, ?_, ?_⟩
    · exact (congrArg Ctx.comp hrc).symm
    · exact congrArg Ctx.branch hrc
    · exact congrArg Ctx.pr hrc
  · exact (enrich_calls_nodup_aux bserver fb issues ⟨[], [], []⟩ List.nodup_nil
      (by intro c hc; simp at hc)).1
  · intro comp hcomp
    rcases enrich_calls_source bserver fb issues ⟨[], [], []⟩ comp hcomp with h | h
    · simp at h
    · exact h

/-- C1 witness: on the two-issue scenario the single request's context is
backed by a line-bearing issue. -/
theorem blame_fetch_at_most_once_witness :
    ∃ it ∈ scenarioIssues, lineBearingRun it = true ∧ it.component = scenarioReq.key ∧
      scenarioReq.branch = none ∧ scenarioReq.pullRequest = none :=
  (blame_fetch_at_most_once scenarioIssues none none cexBlameServer true).2.1
    scenarioReq (by decide)

theorem blameCache_lookup_congr (s1 s2 : BlameReq → RunScmResponse) (issues : List Issue)
    (c0 : String) (hs : ∀ req : BlameReq, req.key ≠ c0 → s1 req = s2 req) :
    ∀ (L : List Ctx) (k : Ctx), k.comp ≠ c0 →
      alookup (L.filterMap (fun c => (ctxRequest issues c).map
          (fun req => (c, fetch_scm_for_component s1 req)))) k
        = alookup (L.filterMap (fun c => (ctxRequest issues c).map
          (fun req => (c, fetch_scm_for_component s2 req)))) k := by
  intro L
  induction L with
  | nil =>
    intro k hk
    rfl
  | cons c rest ih =>
    intro k hk
    cases hc : ctxRequest issues c with
    | none =>
      simp only [List.filterMap_cons, hc, Option.map_none']
      exact ih k hk
    | some req =>
      simp only [List.filterMap_cons, hc, Option.map_some']
      simp only [alookup]
      by_cases hck : c = k
      · rw [if_pos hck, if_pos hck]
        have hkey : req.key = c.comp := congrArg Ctx.comp (ctxRequest_reqCtx issues c req hc)
        have hss : s1 req = s2 req := by
          apply hs
          rw [hkey, hck]
          exact hk
        rw [fetch_scm_for_component, fetch_scm_for_component, hss]
      · rw [if_neg hck, if_neg hck]
        exact ih k hk

theorem rowOf_congr (cache1 cache2 : List (Ctx × List (Int × ScmInfo)))
    (bp pp : Option String) (it : Issue)
    (h : alookup cache1 ⟨it.component, bp, pp⟩ = alookup cache2 ⟨it.component, bp, pp⟩) :
    rowOf cache1 bp pp it = rowOf cache2 bp pp it := by
  have hinfo : rowInfo cache1 bp pp it = rowInfo cache2 bp pp it := by
    unfold rowInfo
    cases extractLineRun it with
    | none => rfl
    | some l => rw [h]
  unfold rowOf
  rw [hinfo]

/-- C6: a non-success blame response is never surfaced — both variants turn
it into an empty per-line table for that context — and a blame failure for
one component leaves the enriched rows of every issue in any other
component untouched. -/
theorem blame_failure_isolated :
    (∀ (bserver : String → BlameScmResponse) (comp : String),
        400 ≤ (bserver comp).status → get_scm_blame bserver comp = []) ∧
    (∀ (server : BlameReq → RunScmResponse) (req : BlameReq),
        (server req).status ≠ 200 → fetch_scm_for_component server req = []) ∧
    (∀ (s1 s2 : BlameReq → RunScmResponse) (issues : List Issue) (bp pp : Option String)
       (c0 : String),
        (∀ req : BlameReq, req.key ≠ c0 → s1 req = s2 req) →
        ∀ it ∈ issues, it.component ≠ c0 →
          rowOf (blameCacheRun s1 bp pp issues) bp pp it
            = rowOf (blameCacheRun s2 bp pp issues) bp pp it) := by
  refine ⟨?_, ?_, ?_⟩
  · intro bserver comp h
    unfold get_scm_blame
    rw [if_pos h]
  · intro server req h
    unfold fetch_scm_for_component
    rw [if_pos h]
  · intro s1 s2 issues bp pp c0 hs it _ hcomp
    apply rowOf_congr
    exact blameCache_lookup_congr s1 s2 issues c0 hs (runContexts bp pp issues)
      ⟨it.component, bp, pp⟩ hcomp

/-- C6 witness: a concrete 403 response decodes to the empty table. -/
theorem blame_failure_isolated_witness :
    fetch_scm_for_component failBlameServer scenarioReq = [] :=
  blame_failure_isolated.2.1 failBlameServer scenarioReq (by decide)

theorem rangeFold_spec :
    ∀ (L : List Int) (mn mx : Int),
      ((L.foldl rangeStep (mn, mx)).1 = mn ∨ (L.foldl rangeStep (mn, mx)).1 ∈ L) ∧
      ((L.foldl rangeStep (mn, mx)).2 = mx ∨ (L.foldl rangeStep (mn, mx)).2 ∈ L) ∧
      (L.foldl rangeStep (mn, mx)).1 ≤ mn ∧ mx ≤ (L.foldl rangeStep (mn, mx)).2 ∧
      (∀ l ∈ L, (L.foldl rangeStep (mn, mx)).1 ≤ l ∧ l ≤ (L.foldl rangeStep (mn, mx)).2) := by
  intro L
  induction L with
  | nil =>
    intro mn mx
    exact ⟨Or.inl rfl, Or.inl rfl, le_refl _, le_refl _, by simp⟩
  | cons e rest ih =>
    intro mn mx
    obtain ⟨h1, h2, h3, h4, h5⟩ := ih (min mn e) (max mx e)
    have hfc : (e :: rest).foldl rangeStep (mn, mx)
        = rest.foldl rangeStep (min mn e, max mx e) := rfl
    rw [hfc]
    refine ⟨?_, ?_, ?_, ?_, ?_⟩
    · rcases h1 with h | h
      · rcases min_choice mn e with hm | hm
        · exact Or.inl (h.trans hm)
        · rw [h, hm]
          exact Or.inr (List.mem_cons_self _ _)
      · exact Or.inr (List.mem_cons_of_mem _ h)
    · rcases h2 with h | h
      · rcases max_choice mx e with hm | hm
        · exact Or.inl (h.trans hm)
        · rw [h, hm]
          exact Or.inr (List.mem_cons_self _ _)
      · exact Or.inr (List.mem_cons_of_mem _ h)
    · exact h3.trans (min_le_left _ _)
    · exact (le_max_left _ _).trans h4
    · intro l hl
      rcases List.mem_cons.mp hl with h | h
      · subst h
        exact ⟨h3.trans (min_le_right _ _), (le_max_right _ _).trans h4⟩
      · exact h5 l h

theorem mem_compLines (issues : List Issue) (it : Issue) (l : Int)
    (hit : it ∈ issues) (hl : extractLineRun it = some l) :
    l ∈ compLines issues it.component := by
  unfold compLines
  apply List.mem_filterMap.mpr
  exact ⟨it, List.mem_filter.mpr ⟨hit, by simp⟩, hl⟩

theorem compLines_source (issues : List Issue) (c : String) :
    ∀ l ∈ compLines issues c, ∃ it ∈ issues, extractLineRun it = some l := by
  intro l hl
  obtain ⟨it, hit, hext⟩ := List.mem_filterMap.mp hl
  exact ⟨it, (List.mem_filter.mp hit).1, hext⟩

theorem ctxRequest_spec (issues : List Issue) (c : Ctx)
    (hne : compLines issues c.comp ≠ [])
    (hbound : ∀ l ∈ compLines issues c.comp, 0 ≤ l ∧ l < 1000000000) :
    ∃ req, ctxRequest issues c = some req ∧ req.key = c.comp ∧
      req.branch = c.branch ∧ req.pullRequest = c.pr ∧
      req.fromLine ∈ compLines issues c.comp ∧ req.toLine ∈ compLines issues c.comp ∧
      (∀ l ∈ compLines issues c.comp, req.fromLine ≤ l ∧ l ≤ req.toLine) := by
  obtain ⟨h1, h2, h3, h4, h5⟩ := rangeFold_spec (compLines issues c.comp) 1000000000 (-1)
  have hR : (compLines issues c.comp).foldl rangeStep (1000000000, -1)
      = rangeOf issues c.comp := rfl
  rw [hR] at h1 h2 h3 h4 h5
  obtain ⟨l0, hl0⟩ := List.exists_mem_of_ne_nil _ hne
  obtain ⟨hc1, hc2⟩ := h5 l0 hl0
  obtain ⟨hb1, hb2⟩ := hbound l0 hl0
  have hmin_mem : (rangeOf issues c.comp).1 ∈ compLines issues c.comp := by
    rcases h1 with h | h
    · exact absurd h (by omega)
    · exact h
  have hmax_mem : (rangeOf issues c.comp).2 ∈ compLines issues c.comp := by
    rcases h2 with h | h
    · exact absurd h (by omega)
    · exact h
  have hguard : ¬ ((rangeOf issues c.comp).2 < (rangeOf issues c.comp).1
      ∨ (rangeOf issues c.comp).1 = 1000000000) := by
    rintro (h | h) <;> omega
  refine ⟨⟨c.comp, (rangeOf issues c.comp).1, (rangeOf issues c.comp).2, c.branch, c.pr⟩,
    ?_, rfl, rfl, rfl, hmin_mem, hmax_mem, h5⟩
  unfold ctxRequest
  rw [if_neg hguard]

theorem count_reqCtx_one (issues : List Issue) (L : List Ctx) (hnd : L.Nodup)
    (c : Ctx) (hc : c ∈ L) (hsome : (ctxRequest issues c).isSome) :
    ((L.filterMap (ctxRequest issues)).map reqCtx).count c = 1 := by
  rw [map_reqCtx_filterMap]
  have hmem : c ∈ L.filter (fun c => (ctxRequest issues c).isSome) :=
    List.mem_filter.mpr ⟨hc, hsome⟩
  exact List.count_eq_one_of_mem (hnd.filter _) hmem

/-- C8 counterexample: the issue at line `10**9` (the sentinel of the
range-grouping fold) is line-bearing, so its context forms a group, yet
`enrich_with_scm` issues zero blame requests for it instead of exactly
one. -/
theorem huge_line_group_no_request_cex :
    lineBearingRun hugeLineIssue = true ∧
    runContexts none none [hugeLineIssue] = [⟨"big.py", none, none⟩] ∧
    runRequests none none [hugeLineIssue] = [] := by
  exact ⟨by decide, by decide, by decide⟩

/-- C8 amended: provided every extracted line is in `[0, 10**9)` — true of
real line numbers — each group gets exactly one blame request spanning its
`[min, max]` line interval inclusive; in the two-issue scenario the single
request for `proj:a.py` carries `from=10, to=40`, the line-10 issue gets
blame and the line-40 issue does not when the response only covers lines 10
and 25. A group whose minimum line reaches the `10**9` sentinel gets no
request. -/
theorem blame_request_per_group_amended :
    (∀ (issues : List Issue) (bp pp : Option String),
       (∀ it ∈ issues, ∀ l : Int, extractLineRun it = some l → 0 ≤ l ∧ l < 1000000000) →
       ∀ c ∈ runContexts bp pp issues,
         ∃ req, ctxRequest issues c = some req ∧
           ((runRequests bp pp issues).map reqCtx).count c = 1 ∧
           req.key = c.comp ∧ req.branch = c.branch ∧ req.pullRequest = c.pr ∧
           req.fromLine ∈ compLines issues c.comp ∧
           req.toLine ∈ compLines issues c.comp ∧
           (∀ l ∈ compLines issues c.comp, req.fromLine ≤ l ∧ l ≤ req.toLine)) ∧
    (runRequests none none scenarioIssues = [scenarioReq] ∧
     (enrich_with_scm scenarioServer scenarioIssues none none).map EnrichedRow.scm_author
       = [some "alice", none] ∧
     (enrich_with_scm scenarioServer scenarioIssues none none).map EnrichedRow.scm_revision
       = [some "rev1", none]) := by
  constructor
  · intro issues bp pp hbound c hc
    have hc2 := hc
    rw [runContexts, List.mem_dedup] at hc2
    obtain ⟨it, hit, hctx⟩ := List.mem_map.mp hc2
    obtain ⟨hit2, hbear⟩ := List.mem_filter.mp hit
    simp only [lineBearingRun, Bool.and_eq_true, bne_iff_ne, ne_eq,
      Option.isSome_iff_exists] at hbear
    obtain ⟨hcomp, l1, hl1⟩ := hbear
    have hcc : c.comp = it.component := by
      rw [← hctx]
    have hne : compLines issues c.comp ≠ [] := by
      rw [hcc]
      intro hnil
      have := mem_compLines issues it l1 hit2 hl1
      rw [hnil] at this
      exact List.not_mem_nil _ this
    have hbound2 : ∀ l ∈ compLines issues c.comp, 0 ≤ l ∧ l < 1000000000 := by
      intro l hl
      obtain ⟨it2, hit2m, hext2⟩ := compLines_source issues c.comp l hl
      exact hbound it2 hit2m l hext2
    obtain ⟨req, hreq, hkey, hbr, hpr, hfrom, hto, hspan⟩ := ctxRequest_spec issues c hne hbound2
    refine ⟨req, hreq, ?_, hkey, hbr, hpr, hfrom, hto, hspan⟩
    exact count_reqCtx_one issues (runContexts bp pp issues) (List.nodup_dedup _) c hc
      (by rw [hreq]; rfl)
  · exact ⟨by decide, by decide, by decide⟩

/-- C8 amended witness: the per-group request property instantiated on the
two-issue scenario's context. -/
theorem blame_request_per_group_amended_witness :
    ∃ req, ctxRequest scenarioIssues ⟨"proj:a.py", none, none⟩ = some req ∧
      ((runRequests none none scenarioIssues).map reqCtx).count ⟨"proj:a.py", none, none⟩ = 1 ∧
      req.key = "proj:a.py" ∧ req.branch = none ∧ req.pullRequest = none ∧
      req.fromLine ∈ compLines scenarioIssues "proj:a.py" ∧
      req.toLine ∈ compLines scenarioIssues "proj:a.py" ∧
      (∀ l ∈ compLines scenarioIssues "proj:a.py", req.fromLine ≤ l ∧ l ≤ req.toLine) :=
  blame_request_per_group_amended.1 scenarioIssues none none
    (by
      intro it hit l hl
      rcases List.mem_cons.mp hit with h | h
      · rw [h] at hl
        have h10 : extractLineRun issueI1 = some 10 := by decide
        rw [h10] at hl
        have := Option.some.inj hl
        omega
      · rcases List.mem_cons.mp h with h2 | h2
        · rw [h2] at hl
          have h40 : extractLineRun issueI2 = some 40 := by decide
          rw [h40] at hl
          have := Option.some.inj hl
          omega
        · exact absurd h2 (List.not_mem_nil _))
    ⟨"proj:a.py", none, none⟩ (by decide)

theorem rangesStep_eq_skip_comp (rs : List (Ctx × Int × Int)) (it : Issue)
    (hcomp : it.component = "") : rangesStep rs it = rs := by
  unfold rangesStep
  rw [if_pos hcomp]

theorem rangesStep_eq_skip_line (rs : List (Ctx × Int × Int)) (it : Issue)
    (hext : extractLineRun it = none) : rangesStep rs it = rs := by
  unfold rangesStep
  by_cases hc : it.component = ""
  · rw [if_pos hc]
  · rw [if_neg hc, hext]

theorem rangesStep_eq_update (rs : List (Ctx × Int × Int)) (it : Issue) (l : Int)
    (hcomp : it.component ≠ "") (hext : extractLineRun it = some l) :
    rangesStep rs it = updateRange rs (ctxOfIssue it) l := by
  unfold rangesStep
  rw [if_neg hcomp, hext]

theorem updateRange_min_le_max :
    ∀ (rs : List (Ctx × Int × Int)) (k : Ctx) (l : Int),
      (∀ e ∈ rs, e.2.1 ≤ e.2.2) → ∀ e ∈ updateRange rs k l, e.2.1 ≤ e.2.2 := by
  intro rs
  induction rs with
  | nil =>
    intro k l _ e he
    simp only [updateRange, List.mem_singleton] at he
    subst he
    exact le_refl l
  | cons p rest ih =>
    intro k l h e he
    obtain ⟨k', r⟩ := p
    by_cases hk : k' = k
    · simp only [updateRange, if_pos hk] at he
      rcases List.mem_cons.mp he with h1 | h1
      · subst h1
        have hr := h (k', r) (List.mem_cons_self _ _)
        calc min r.1 l ≤ r.1 := min_le_left _ _
          _ ≤ r.2 := hr
          _ ≤ max r.2 l := le_max_left _ _
      · exact h _ (List.mem_cons_of_mem _ h1)
    · simp only [updateRange, if_neg hk] at he
      rcases List.mem_cons.mp he with h1 | h1
      · subst h1
        exact h _ (List.mem_cons_self _ _)
      · exact ih k l (fun e' he' => h e' (List.mem_cons_of_mem _ he')) e h1

theorem alookup_updateRange_ne :
    ∀ (rs : List (Ctx × Int × Int)) (k k0 : Ctx) (l : Int), k0 ≠ k →
      alookup (updateRange rs k l) k0 = alookup rs k0 := by
  intro rs
  induction rs with
  | nil =>
    intro k k0 l h
    simp only [updateRange, alookup]
    rw [if_neg (fun hh : k = k0 => h hh.symm)]
  | cons p rest ih =>
    intro k k0 l h
    obtain ⟨k', r⟩ := p
    by_cases hk : k' = k
    · simp only [updateRange, if_pos hk, alookup]
      have hne : ¬ k' = k0 := fun hh => h (hh.symm.trans hk)
      rw [if_neg hne, if_neg hne]
    · simp only [updateRange, if_neg hk, alookup]
      by_cases h2 : k' = k0
      · rw [if_pos h2, if_pos h2]
      · rw [if_neg h2, if_neg h2]
        exact ih k k0 l h

theorem alookup_updateRange_self :
    ∀ (rs : List (Ctx × Int × Int)) (k : Ctx) (l : Int),
      alookup (updateRange rs k l) k
        = some (match alookup rs k with
                | none => (l, l)
                | some r => (min r.1 l, max r.2 l)) := by
  intro rs
  induction rs with
  | nil =>
    intro k l
    simp [updateRange, alookup]
  | cons p rest ih =>
    intro k l
    obtain ⟨k', r⟩ := p
    by_cases hk : k' = k
    · simp only [updateRange, if_pos hk, alookup]
    · simp only [updateRange, if_neg hk, alookup]
      exact ih k l

theorem rangesStep_mono (rs : List (Ctx × Int × Int)) (it : Issue) (k0 : Ctx)
    (mn mx : Int) (h : alookup rs k0 = some (mn, mx)) :
    ∃ mn' mx', alookup (rangesStep rs it) k0 = some (mn', mx') ∧ mn' ≤ mn ∧ mx ≤ mx' := by
  by_cases hc : it.component = ""
  · rw [rangesStep_eq_skip_comp rs it hc]
    exact ⟨mn, mx, h, le_refl _, le_refl _⟩
  · cases hext : extractLineRun it with
    | none =>
      rw [rangesStep_eq_skip_line rs it hext]
      exact ⟨mn, mx, h, le_refl _, le_refl _⟩
    | some l =>
      rw [rangesStep_eq_update rs it l hc hext]
      by_cases hk : k0 = ctxOfIssue it
      · rw [hk, alookup_updateRange_self, ← hk, h]
        exact ⟨min mn l, max mx l, rfl, min_le_left _ _, le_max_left _ _⟩
      · rw [alookup_updateRange_ne _ _ _ _ hk]
        exact ⟨mn, mx, h, le_refl _, le_refl _⟩

theorem foldl_rangesStep_mono :
    ∀ (issues : List Issue) (rs : List (Ctx × Int × Int)) (k0 : Ctx) (mn mx : Int),
      alookup rs k0 = some (mn, mx) →
      ∃ mn' mx', alookup (issues.foldl rangesStep rs) k0 = some (mn', mx')
        ∧ mn' ≤ mn ∧ mx ≤ mx' := by
  intro issues
  induction issues with
  | nil =>
    intro rs k0 mn mx h
    exact ⟨mn, mx, h, le_refl _, le_refl _⟩
  | cons it rest ih =>
    intro rs k0 mn mx h
    obtain ⟨mn1, mx1, h1, h2, h3⟩ := rangesStep_mono rs it k0 mn mx h
    obtain ⟨mn2, mx2, h4, h5, h6⟩ := ih (rangesStep rs it) k0 mn1 mx1 h1
    exact ⟨mn2, mx2, h4, le_trans h5 h2, le_trans h3 h6⟩

theorem foldl_rangesStep_covers :
    ∀ (issues : List Issue) (rs : List (Ctx × Int × Int)) (it : Issue) (l : Int),
      it ∈ issues → it.component ≠ "" → extractLineRun it = some l →
      ∃ mn mx, alookup (issues.foldl rangesStep rs) (ctxOfIssue it) = some (mn, mx)
        ∧ mn ≤ l ∧ l ≤ mx := by
  intro issues
  induction issues with
  | nil =>
    intro rs it l h
    exact absurd h (List.not_mem_nil _)
  | cons it0 rest ih =>
    intro rs it l hmem hcomp hext
    rw [List.foldl_cons]
    rcases List.mem_cons.mp hmem with h | h
    · subst h
      have hstep : ∃ mn mx, alookup (rangesStep rs it) (ctxOfIssue it) = some (mn, mx)
          ∧ mn ≤ l ∧ l ≤ mx := by
        rw [rangesStep_eq_update rs it l hcomp hext, alookup_updateRange_self]
        cases halo : alookup rs (ctxOfIssue it) with
        | none => exact ⟨l, l, rfl, le_refl _, le_refl _⟩
        | some r => exact ⟨min r.1 l, max r.2 l, rfl, min_le_right _ _, le_max_right _ _⟩
      obtain ⟨mn, mx, h1, h2, h3⟩ := hstep
      obtain ⟨mn', mx', h4, h5, h6⟩ :=
        foldl_rangesStep_mono rest (rangesStep rs it) (ctxOfIssue it) mn mx h1
      exact ⟨mn', mx', h4, le_trans h5 h2, le_trans h3 h6⟩
    · exact ih (rangesStep rs it0) it l h hcomp hext

theorem foldl_rangesStep_min_le_max :
    ∀ (issues : List Issue) (rs : List (Ctx × Int × Int)),
      (∀ e ∈ rs, e.2.1 ≤ e.2.2) → ∀ e ∈ issues.foldl rangesStep rs, e.2.1 ≤ e.2.2 := by
  intro issues
  induction issues with
  | nil =>
    intro rs h
    exact h
  | cons it rest ih =>
    intro rs h
    rw [List.foldl_cons]
    apply ih
    by_cases hc : it.component = ""
    · rw [rangesStep_eq_skip_comp rs it hc]
      exact h
    · cases hext : extractLineRun it with
      | none =>
        rw [rangesStep_eq_skip_line rs it hext]
        exact h
      | some l =>
        rw [rangesStep_eq_update rs it l hc hext]
        exact updateRange_min_le_max rs (ctxOfIssue it) l h

theorem updateRange_key_mem :
    ∀ (rs : List (Ctx × Int × Int)) (k : Ctx) (l : Int) (e : Ctx × Int × Int),
      e ∈ updateRange rs k l → (∃ r : Int × Int, (e.1, r) ∈ rs) ∨ e.1 = k := by
  intro rs
  induction rs with
  | nil =>
    intro k l e he
    simp only [updateRange, List.mem_singleton] at he
    subst he
    exact Or.inr rfl
  | cons p rest ih =>
    intro k l e he
    obtain ⟨k', r⟩ := p
    by_cases hk : k' = k
    · simp only [updateRange, if_pos hk] at he
      rcases List.mem_cons.mp he with h1 | h1
      · subst h1
        exact Or.inl ⟨r, List.mem_cons_self _ _⟩
      · exact Or.inl ⟨e.2, List.mem_cons_of_mem _ h1⟩
    · simp only [updateRange, if_neg hk] at he
      rcases List.mem_cons.mp he with h1 | h1
      · subst h1
        exact Or.inl ⟨r, List.mem_cons_self _ _⟩
      · rcases ih k l e h1 with ⟨r2, h2⟩ | h2
        · exact Or.inl ⟨r2, List.mem_cons_of_mem _ h2⟩
        · exact Or.inr h2

theorem foldl_rangesStep_witnessed :
    ∀ (issues : List Issue) (rs : List (Ctx × Int × Int)) (e : Ctx × Int × Int),
      e ∈ issues.foldl rangesStep rs →
      (∃ r : Int × Int, (e.1, r) ∈ rs) ∨
      ∃ it ∈ issues, it.component ≠ "" ∧ (extractLineRun it).isSome = true ∧
        ctxOfIssue it = e.1 := by
  intro issues
  induction issues with
  | nil =>
    intro rs e h
    exact Or.inl ⟨e.2, h⟩
  | cons it0 rest ih =>
    intro rs e h
    rw [List.foldl_cons] at h
    rcases ih (rangesStep rs it0) e h with ⟨r2, h2⟩ | ⟨it2, hm, h3, h4, h5⟩
    · by_cases hc : it0.component = ""
      · rw [rangesStep_eq_skip_comp rs it0 hc] at h2
        exact Or.inl ⟨r2, h2⟩
      · cases hext : extractLineRun it0 with
        | none =>
          rw [rangesStep_eq_skip_line rs it0 hext] at h2
          exact Or.inl ⟨r2, h2⟩
        | some l =>
          rw [rangesStep_eq_update rs it0 l hc hext] at h2
          rcases updateRange_key_mem rs (ctxOfIssue it0) l (e.1, r2) h2 with ⟨r3, h3⟩ | h3
          · exact Or.inl ⟨r3, h3⟩
          · refine Or.inr ⟨it0, List.mem_cons_self _ _, hc, ?_, h3.symm⟩
            rw [hext]
            rfl
    · exact Or.inr ⟨it2, List.mem_cons_of_mem _ hm, h3, h4, h5⟩

/-- C9: in `collect_line_ranges_by_component`, every produced group has
`min ≤ max`; every line-bearing issue with a component has its extracted
line inside the range stored for its `(component, branch, pullRequest)`
context; and no group exists for a context without a line-bearing issue. -/
theorem line_range_grouper_invariants :
    ∀ issues : List Issue,
      (∀ e ∈ collect_line_ranges_by_component issues, e.2.1 ≤ e.2.2) ∧
      (∀ it ∈ issues, it.component ≠ "" → ∀ l : Int, extractLineRun it = some l →
        ∃ mn mx, alookup (collect_line_ranges_by_component issues) (ctxOfIssue it)
            = some (mn, mx) ∧ mn ≤ l ∧ l ≤ mx) ∧
      (∀ e ∈ collect_line_ranges_by_component issues,
        ∃ it ∈ issues, it.component ≠ "" ∧ (extractLineRun it).isSome = true ∧
          ctxOfIssue it = e.1) := by
  intro issues
  refine ⟨?_, ?_, ?_⟩
  · exact foldl_rangesStep_min_le_max issues []
      (by intro e he; exact absurd he (List.not_mem_nil _))
  · intro it hit hcomp l hext
    exact foldl_rangesStep_covers issues [] it l hit hcomp hext
  · intro e he
    rcases foldl_rangesStep_witnessed issues [] e he with ⟨r2, h2⟩ | h
    · exact absurd h2 (List.not_mem_nil _)
    · exact h

/-- C9 witness: the scenario's line-10 issue lies inside the range computed
for its context. -/
theorem line_range_grouper_invariants_witness :
    ∃ mn mx, alookup (collect_line_ranges_by_component scenarioIssues) (ctxOfIssue issueI1)
        = some (mn, mx) ∧ mn ≤ 10 ∧ (10 : Int) ≤ mx :=
  (line_range_grouper_invariants scenarioIssues).2.1 issueI1 (by decide) (by decide)
    10 (by decide)

end SonarPipeline
